import Mathlib

/-!
Verification of the data-derivation layer of the League of Misfits dashboard.

The definitions below are a shallow embedding of the derivation logic in the
repository source (the variant that derives standings, matchups, trends and
awards locally from raw Sleeper rows).  JavaScript numbers are modelled as
rationals, absent/null JSON fields as `Option`, and the JS falsy test
(`x || d`, `!x`) explicitly: `0`, `""`, `null`/`undefined` are falsy.
Asynchronous per-week fetches are modelled by passing the fetch results as a
function `Nat → Option (List MatchupRow)` (a `none` result is a failed fetch).
-/

namespace Misfits

/-- A user record from the users endpoint (only the fields the code reads). -/
structure SleeperUser where
  user_id : String
  display_name : Option String
  username : Option String
  avatar : Option String
deriving DecidableEq

/-- The value stored in `userMap`: `{ name, avatar }`. -/
structure UserEntry where
  name : String
  avatar : Option String
deriving DecidableEq

/-- JS falsy-or on an optional string: `o || d` (both absence and `""` fall through). -/
def strOr (o : Option String) (d : String) : String :=
  match o with
  | some s => if s = "" then d else s
  | none => d

/-- JS falsy-or on an optional natural number: `o || d` (absence and `0` fall through). -/
def natOr (o : Option Nat) (d : Nat) : Nat :=
  match o with
  | some n => if n = 0 then d else n
  | none => d

/-- One entry of `userMap`:
`{ name: u.display_name || u.username || 'Unknown', avatar: u.avatar ? cdnUrl : null }`. -/
def userEntry (u : SleeperUser) : UserEntry :=
  { name := strOr u.display_name (strOr u.username "Unknown")
    avatar :=
      match u.avatar with
      | some a => if a = "" then none else some ("https://sleepercdn.com/avatars/thumbs/" ++ a)
      | none => none }

/-- `userMap` lookup.  The JS builds the map with `users.forEach`, so on duplicate
`user_id` keys the last write wins; looking up in the reversed list models that. -/
def userMap (users : List SleeperUser) (uid : String) : Option UserEntry :=
  (users.reverse.find? (fun u => u.user_id == uid)).map userEntry

/-- `userMap[r.owner_id]` where the owner id itself may be absent. -/
def ownerEntry (users : List SleeperUser) (oid : Option String) : Option UserEntry :=
  oid.bind (userMap users)

/-- Nested `settings` object of a roster (all fields may be absent). -/
structure RosterSettings where
  wins : Option Nat
  losses : Option Nat
  fpts : Option ℚ
  fpts_decimal : Option ℚ
  fpts_against : Option ℚ
  fpts_against_decimal : Option ℚ
deriving DecidableEq

/-- Nested `metadata` object of a roster. -/
structure RosterMetadata where
  streak : Option String
deriving DecidableEq

/-- A roster record from the rosters endpoint. -/
structure Roster where
  roster_id : Nat
  owner_id : Option String
  settings : Option RosterSettings
  metadata : Option RosterMetadata
deriving DecidableEq

/-- The per-team standings entry produced by `useLeagueData`. -/
structure Team where
  name : String
  avatar : Option String
  wins : Nat
  losses : Nat
  pf : ℚ
  pa : ℚ
  rosterId : Nat
  ownerId : Option String
  streak : String
  rank : Nat
deriving DecidableEq

/-- The `.map(r => ...)` step of the standings pipeline: one `Team` per `Roster`,
with every irregular field defaulted exactly as the `||`/`?.` chain does.
`rank` is a placeholder `0` until ranks are assigned after sorting. -/
def teamOf (users : List SleeperUser) (r : Roster) : Team :=
  { name := strOr ((ownerEntry users r.owner_id).map UserEntry.name)
      ("Team " ++ toString r.roster_id)
    avatar := (ownerEntry users r.owner_id).bind UserEntry.avatar
    wins := (r.settings.bind RosterSettings.wins).getD 0
    losses := (r.settings.bind RosterSettings.losses).getD 0
    pf := (r.settings.bind RosterSettings.fpts).getD 0
      + (r.settings.bind RosterSettings.fpts_decimal).getD 0 / 100
    pa := (r.settings.bind RosterSettings.fpts_against).getD 0
      + (r.settings.bind RosterSettings.fpts_against_decimal).getD 0 / 100
    rosterId := r.roster_id
    ownerId := r.owner_id
    streak := strOr (r.metadata.bind RosterMetadata.streak) ""
    rank := 0 }

/-- The sort comparator `(a, b) => b.wins !== a.wins ? b.wins - a.wins : b.pf - a.pf`
read as a non-strict order: `a` may precede `b` iff the comparator is `≤ 0`. -/
def standingsLE (a b : Team) : Bool :=
  if a.wins = b.wins then decide (b.pf ≤ a.pf) else decide (b.wins < a.wins)

/-- The final `.map((t, i) => ({ ...t, rank: i + 1 }))` step, assigning ranks `n, n+1, ...`. -/
def assignRanks : Nat → List Team → List Team
  | _, [] => []
  | n, t :: ts => { t with rank := n } :: assignRanks (n + 1) ts

/-- The standings pipeline of `useLeagueData`: map rosters to teams, stable-sort by
wins descending then points-for descending (JS `Array.prototype.sort` is stable),
then assign dense ranks `1..N`. -/
def standings (users : List SleeperUser) (rosters : List Roster) : List Team :=
  assignRanks 1 (List.mergeSort (rosters.map (teamOf users)) standingsLE)

/-- A per-roster weekly scoring row from the matchups endpoint. -/
structure MatchupRow where
  roster_id : Nat
  matchup_id : Option Nat
  points : Option ℚ
deriving DecidableEq

/-- `m.points || 0` (an absent score defaults to `0`; a literal `0` stays `0`). -/
def rowPoints (m : MatchupRow) : ℚ := m.points.getD 0

/-- The guard `if (!mid) return`: a row is grouped only when its `matchup_id` is
truthy, i.e. present and different from `0`. -/
def truthyMid : Option Nat → Bool
  | some n => n != 0
  | none => false

/-- `rosterToUser[rid] = userMap[r.owner_id]?.name || "Team " + r.roster_id`,
built by `rosters.forEach` (last write wins on duplicate roster ids). -/
def rosterToUser (users : List SleeperUser) (rosters : List Roster) (rid : Nat) :
    Option String :=
  (rosters.reverse.find? (fun r => r.roster_id == rid)).map
    (fun r => strOr ((ownerEntry users r.owner_id).map UserEntry.name)
      ("Team " ++ toString r.roster_id))

/-- The enriched row pushed into a group: `{ ...m, teamName, points: m.points || 0 }`. -/
structure TaggedRow where
  roster_id : Nat
  matchup_id : Option Nat
  teamName : String
  points : ℚ
deriving DecidableEq

/-- Enrichment of one row with its resolved team name and defaulted points. -/
def tagRow (users : List SleeperUser) (rosters : List Roster) (m : MatchupRow) : TaggedRow :=
  { roster_id := m.roster_id
    matchup_id := m.matchup_id
    teamName := strOr (rosterToUser users rosters m.roster_id)
      ("Team " ++ toString m.roster_id)
    points := rowPoints m }

/-- The distinct truthy `matchup_id` keys of the grouping object.  JS objects
enumerate integer-like keys in ascending numeric order, hence the sort. -/
def groupKeys (l : List MatchupRow) : List Nat :=
  List.mergeSort ((l.filterMap MatchupRow.matchup_id).filter (fun n => n != 0)).dedup
    (fun a b => decide (a ≤ b))

/-- The group collected under one truthy key: the rows carrying that id, in input
(push) order, each enriched by `tagRow`. -/
def groupRows (users : List SleeperUser) (rosters : List Roster) (l : List MatchupRow)
    (mid : Nat) : List TaggedRow :=
  (l.filter (fun m => m.matchup_id == some mid)).map (tagRow users rosters)

/-- A reconstructed head-to-head matchup. -/
structure Matchup where
  team1 : String
  score1 : ℚ
  team2 : String
  score2 : ℚ
deriving DecidableEq

/-- `filter(g => g.length === 2).map(([a, b]) => ...)` fused on one group: a
matchup for a group of exactly two rows, nothing otherwise. -/
def matchupOfGroup (g : List TaggedRow) : Option Matchup :=
  match g with
  | [a, b] => some { team1 := a.teamName, score1 := a.points
                     team2 := b.teamName, score2 := b.points }
  | _ => none

/-- The pairing step of `useMatchups`:
`Object.values(grouped).filter(g => g.length === 2).map(([a, b]) => ...)`. -/
def pairs (users : List SleeperUser) (rosters : List Roster) (l : List MatchupRow) :
    List Matchup :=
  ((groupKeys l).map (groupRows users rosters l)).filterMap matchupOfGroup

/-- One point of the weekly scoring trend. -/
structure TrendPoint where
  week : Nat
  high : ℚ
  low : ℚ
  avg : ℚ
deriving DecidableEq

/-- `Math.max(...scores)` for the nonempty lists it is applied to. -/
def listMax : List ℚ → ℚ
  | [] => 0
  | h :: t => t.foldl max h

/-- `Math.min(...scores)` for the nonempty lists it is applied to. -/
def listMin : List ℚ → ℚ
  | [] => 0
  | h :: t => t.foldl min h

/-- The qualifying scores of a week: `data.map(m => m.points || 0).filter(p => p > 0)`. -/
def weekScores (data : List MatchupRow) : List ℚ :=
  (data.map rowPoints).filter (fun p => decide (0 < p))

/-- The per-week body of `useWeeklyHistory`: when at least one qualifying score
remains, the point `{ week, high, low, avg: sum / count }`, otherwise nothing. -/
def weekPoint (w : Nat) (data : List MatchupRow) : Option TrendPoint :=
  let scores := weekScores data
  if scores.length > 0 then
    some { week := w, high := listMax scores, low := listMin scores
           avg := scores.sum / (scores.length : ℚ) }
  else none

/-- The `useWeeklyHistory` loop over weeks `1 .. min currentWeek 17`; a week whose
fetch failed (`none`) or returned an empty row list is skipped. -/
def weeklyHistory (fetchWeek : Nat → Option (List MatchupRow)) (currentWeek : Nat) :
    List TrendPoint :=
  (List.range' 1 (min currentWeek 17)).filterMap
    (fun w =>
      match fetchWeek w with
      | some data => if data.length > 0 then weekPoint w data else none
      | none => none)

/-- A team/points pair inside the award computation.  `team` is
`rosterToUser[m.roster_id]`, which is `undefined` (here `none`) for an unknown
roster id (no second fallback at this call site). -/
structure ScoreEntry where
  team : Option String
  points : ℚ
deriving DecidableEq

/-- One week of awards.  `horsesAss` restates the low scorer: the code stores
`{ name: low.team, detail: low.points.toFixed(2) + " pts" }`; the decimal string
rendering is presentational, so the entry itself is kept. -/
structure WeekAward where
  week : Nat
  topDawg : ScoreEntry
  superWeenie : ScoreEntry
  horsesAss : ScoreEntry
deriving DecidableEq

/-- The score list of one awards week:
`matchups.map(m => ({ team, points: m.points || 0 })).filter(t => t.points > 0)`. -/
def awardScores (users : List SleeperUser) (rosters : List Roster)
    (data : List MatchupRow) : List ScoreEntry :=
  (data.map (fun m =>
    { team := rosterToUser users rosters m.roster_id, points := rowPoints m }))
    |>.filter (fun t => decide (0 < t.points))

/-- `scores.reduce((max, t) => t.points > max.points ? t : max, scores[0])`:
a left-to-right reduction keeping the first maximal element. -/
def pickTop (s0 : ScoreEntry) (scores : List ScoreEntry) : ScoreEntry :=
  scores.foldl (fun mx t => if mx.points < t.points then t else mx) s0

/-- `scores.reduce((min, t) => t.points < min.points ? t : min, scores[0])`:
a left-to-right reduction keeping the first minimal element. -/
def pickLow (s0 : ScoreEntry) (scores : List ScoreEntry) : ScoreEntry :=
  scores.foldl (fun mn t => if t.points < mn.points then t else mn) s0

/-- The per-week body of the `Awards` calculation; `none` when no qualifying
score remains (`if (scores.length === 0) continue`). -/
def weekAward (users : List SleeperUser) (rosters : List Roster) (w : Nat)
    (data : List MatchupRow) : Option WeekAward :=
  match awardScores users rosters data with
  | [] => none
  | s0 :: rest =>
    some { week := w
           topDawg := pickTop s0 (s0 :: rest)
           superWeenie := pickLow s0 (s0 :: rest)
           horsesAss := pickLow s0 (s0 :: rest) }

/-- One iteration of the `Awards` loop: `continue` (nothing) when the fetch
failed or returned no rows, the week's award otherwise. -/
def awardStep (fetchWeek : Nat → Option (List MatchupRow)) (users : List SleeperUser)
    (rosters : List Roster) (w : Nat) : Option WeekAward :=
  match fetchWeek w with
  | some data =>
    if data.length = 0 then none else weekAward users rosters w data
  | none => none

/-- The `Awards` loop: weeks `max(1, currentWeek - 2) .. currentWeek` oldest to
newest (skipping failed/empty fetches), then `result.reverse()`. -/
def awardsResult (fetchWeek : Nat → Option (List MatchupRow))
    (users : List SleeperUser) (rosters : List Roster) (currentWeek : Nat) :
    List WeekAward :=
  ((List.range' (max 1 (currentWeek - 2)) (currentWeek + 1 - max 1 (currentWeek - 2))).filterMap
    (awardStep fetchWeek users rosters)).reverse

/-- The NFL state record (only the field the code reads). -/
structure NflState where
  week : Option Nat
deriving DecidableEq

/-- The state held by `useLeagueData` (the stored `userMap` object is the
function `userMap users` and is not duplicated here; the unused `league`
payload is reduced to its presence). -/
structure DataState where
  loading : Bool
  error : Option String
  nflState : Option NflState
  league : Option Unit
  users : List SleeperUser
  rosters : List Roster
  standings : List Team
  currentWeek : Nat
deriving DecidableEq

/-- One `refresh` of `useLeagueData`, given the previous state and the four
joined fetch results.  `if (!nflState || !users || !rosters) throw` - a `null`
result for any of the three required fetches lands in the catch branch, which
only flips `loading`/`error` on the previous state; otherwise a whole new
snapshot is published. -/
def refreshResult (prev : DataState) (ns : Option NflState) (lg : Option Unit)
    (us : Option (List SleeperUser)) (rs : Option (List Roster)) : DataState :=
  match ns, us, rs with
  | some ns, some us, some rs =>
    { loading := false
      error := none
      nflState := some ns
      league := lg
      users := us
      rosters := rs
      standings := standings us rs
      currentWeek := natOr ns.week 1 }
  | _, _, _ =>
    { prev with loading := false, error := some "Failed to fetch league data" }

theorem assignRanks_length (n : Nat) (l : List Team) :
    (assignRanks n l).length = l.length := by
  induction l generalizing n with
  | nil => rfl
  | cons t ts ih => simp [assignRanks, ih]

theorem assignRanks_map_rank (n : Nat) (l : List Team) :
    (assignRanks n l).map Team.rank = List.range' n l.length := by
  induction l generalizing n with
  | nil => rfl
  | cons t ts ih => simp [assignRanks, List.range'_succ, ih]

theorem assignRanks_get (n : Nat) (l : List Team) (i : Nat)
    (h1 : i < (assignRanks n l).length) (h2 : i < l.length) :
    (assignRanks n l).get ⟨i, h1⟩ = { l.get ⟨i, h2⟩ with rank := n + i } := by
  induction l generalizing n i with
  | nil => exact absurd h2 (by simp)
  | cons t ts ih =>
    cases i with
    | zero => rfl
    | succ k =>
      have hk2 : k < ts.length := by simpa using h2
      have hk1 : k < (assignRanks (n + 1) ts).length := by
        rw [assignRanks_length]; exact hk2
      have := ih (n + 1) k hk1 hk2
      simpa [assignRanks, Nat.add_assoc, Nat.add_comm 1 k] using this

theorem standingsLE_trans (a b c : Team) (h1 : standingsLE a b) (h2 : standingsLE b c) :
    standingsLE a c = true := by
  simp only [standingsLE] at h1 h2 ⊢
  split_ifs at h1 h2 ⊢ <;> simp_all <;> first | omega | linarith

theorem standingsLE_total (a b : Team) : standingsLE a b || standingsLE b a := by
  simp only [standingsLE]
  by_cases h : a.wins = b.wins
  · rcases le_total a.pf b.pf with hle | hle <;> simp [h, hle]
  · rcases Nat.lt_or_ge a.wins b.wins with hlt | hge
    · simp [h, Ne.symm h, hlt]
    · have : b.wins < a.wins := lt_of_le_of_ne hge (Ne.symm h)
      simp [h, Ne.symm h, this]

/-- The standings order relation: `a` may stand above `b` exactly when `a` has
strictly more wins, or equal wins and at least the points-for of `b`. -/
def sortRel (a b : Team) : Prop :=
  b.wins < a.wins ∨ (a.wins = b.wins ∧ b.pf ≤ a.pf)

theorem standingsLE_imp (a b : Team) (h : standingsLE a b = true) : sortRel a b := by
  simp only [standingsLE] at h
  by_cases hw : a.wins = b.wins
  · rw [if_pos hw] at h
    exact Or.inr ⟨hw, of_decide_eq_true h⟩
  · rw [if_neg hw] at h
    exact Or.inl (of_decide_eq_true h)

theorem mem_assignRanks (b : Team) (n : Nat) (l : List Team)
    (h : b ∈ assignRanks n l) : ∃ a ∈ l, ∃ m : Nat, b = { a with rank := m } := by
  induction l generalizing n with
  | nil => exact absurd h (by simp [assignRanks])
  | cons t ts ih =>
    rw [show assignRanks n (t :: ts) = { t with rank := n } :: assignRanks (n + 1) ts
      from rfl] at h
    rcases List.mem_cons.mp h with h | h
    · exact ⟨t, List.mem_cons_self t ts, n, h⟩
    · obtain ⟨a, ha, m, hm⟩ := ih (n + 1) h
      exact ⟨a, List.mem_cons_of_mem t ha, m, hm⟩

theorem sortRel_rank_update (a b : Team) (n m : Nat) (h : sortRel a b) :
    sortRel { a with rank := n } { b with rank := m } := h

theorem assignRanks_pairwise (n : Nat) (l : List Team) (h : l.Pairwise sortRel) :
    (assignRanks n l).Pairwise sortRel := by
  induction l generalizing n with
  | nil => exact List.Pairwise.nil
  | cons t ts ih =>
    rcases List.pairwise_cons.mp h with ⟨hhead, htail⟩
    refine List.pairwise_cons.mpr ⟨?_, ih (n + 1) htail⟩
    intro b hb
    obtain ⟨a, ha, m, hm⟩ := mem_assignRanks b (n + 1) ts hb
    subst hm
    exact sortRel_rank_update t a n m (hhead a ha)

/-- C1: for every list of rosters, the Standings Ranker produces an output of the
same length as its input, assigns ranks that are exactly the dense sequence
`1..N`, and orders the output so that for all positions `i < j`, either
`wins i > wins j`, or `wins i = wins j` and `pf i ≥ pf j` (with `pf` the
full-precision sum `fpts + fpts_decimal / 100` built by `teamOf`). -/
theorem standings_ranker_c1 (users : List SleeperUser) (rosters : List Roster) :
    (standings users rosters).length = rosters.length ∧
    (standings users rosters).map Team.rank = List.range' 1 rosters.length ∧
    (standings users rosters).Pairwise sortRel := by
  have hslen : (List.mergeSort (rosters.map (teamOf users)) standingsLE).length
      = rosters.length := by
    rw [List.length_mergeSort, List.length_map]
  refine ⟨?_, ?_, ?_⟩
  · rw [standings, assignRanks_length, hslen]
  · rw [standings, assignRanks_map_rank, hslen]
  · have hsorted : (List.mergeSort (rosters.map (teamOf users)) standingsLE).Pairwise
        (fun a b => standingsLE a b) :=
      List.sorted_mergeSort standingsLE_trans standingsLE_total _
    exact assignRanks_pairwise 1 _ (hsorted.imp (fun h => standingsLE_imp _ _ h))

/-- Erase the only field the rank-assignment step writes. -/
def stripRank (t : Team) : Team := { t with rank := 0 }

theorem stripRank_of_rank_zero (t : Team) (h : t.rank = 0) : stripRank t = t := by
  cases t
  simp only [stripRank]
  simp_all

theorem map_stripRank_assignRanks (n : Nat) (l : List Team) :
    (assignRanks n l).map stripRank = l.map stripRank := by
  induction l generalizing n with
  | nil => rfl
  | cons t ts ih =>
    show stripRank { t with rank := n } :: (assignRanks (n + 1) ts).map stripRank
      = stripRank t :: ts.map stripRank
    rw [ih]
    rfl

theorem standings_map_stripRank (users : List SleeperUser) (rosters : List Roster) :
    (standings users rosters).map stripRank
      = List.mergeSort (rosters.map (teamOf users)) standingsLE := by
  rw [standings, map_stripRank_assignRanks]
  have : ∀ t ∈ List.mergeSort (rosters.map (teamOf users)) standingsLE, stripRank t = t := by
    intro t ht
    rcases List.mem_map.mp (List.mem_mergeSort.mp ht) with ⟨r, _, hr⟩
    exact stripRank_of_rank_zero t (by rw [← hr]; rfl)
  calc (List.mergeSort (rosters.map (teamOf users)) standingsLE).map stripRank
      = (List.mergeSort (rosters.map (teamOf users)) standingsLE).map id :=
        List.map_congr_left this
    _ = _ := List.map_id _

/-- C4: the Standings Ranker sort is stable.  If two rosters `ra` and `rb`, with
`ra` earlier in the input, project to teams with identical wins and identical
points-for, then those two teams appear in that same relative order in the
ranked output (viewed through `stripRank`, which erases only the rank the
final enumeration step writes). -/
theorem standings_stable_c4 (users : List SleeperUser) (rosters : List Roster)
    (l1 l2 l3 : List Roster) (ra rb : Roster)
    (hro : rosters = l1 ++ ra :: (l2 ++ rb :: l3))
    (hw : (teamOf users ra).wins = (teamOf users rb).wins)
    (hp : (teamOf users ra).pf = (teamOf users rb).pf) :
    List.Sublist [teamOf users ra, teamOf users rb]
      ((standings users rosters).map stripRank) := by
  rw [standings_map_stripRank]
  have hab : standingsLE (teamOf users ra) (teamOf users rb) = true := by
    simp only [standingsLE, if_pos hw]
    exact decide_eq_true (le_of_eq hp.symm)
  have hsub : List.Sublist [teamOf users ra, teamOf users rb]
      (rosters.map (teamOf users)) := by
    rw [hro, List.map_append, List.map_cons, List.map_append, List.map_cons]
    have s1 : List.Sublist [teamOf users rb] (teamOf users rb :: l3.map (teamOf users)) :=
      (List.nil_sublist _).cons₂ _
    have s2 : List.Sublist [teamOf users rb]
        (l2.map (teamOf users) ++ teamOf users rb :: l3.map (teamOf users)) :=
      s1.trans (List.sublist_append_right _ _)
    have s3 : List.Sublist [teamOf users ra, teamOf users rb]
        (teamOf users ra :: (l2.map (teamOf users)
            ++ teamOf users rb :: l3.map (teamOf users))) :=
      s2.cons₂ _
    exact s3.trans (List.sublist_append_right _ _)
  exact List.pair_sublist_mergeSort standingsLE_trans standingsLE_total hab hsub

/-- Two fixture rosters with identical wins and identical points-for. -/
def twinRosterA : Roster :=
  { roster_id := 1, owner_id := none
    settings := some { wins := some 3, losses := some 1, fpts := some 100
                       fpts_decimal := some 50, fpts_against := none
                       fpts_against_decimal := none }
    metadata := none }

def twinRosterB : Roster :=
  { roster_id := 2, owner_id := none
    settings := some { wins := some 3, losses := some 1, fpts := some 100
                       fpts_decimal := some 50, fpts_against := none
                       fpts_against_decimal := none }
    metadata := none }

theorem standings_stable_c4_witness :
    List.Sublist [teamOf [] twinRosterA, teamOf [] twinRosterB]
      ((standings [] [twinRosterA, twinRosterB]).map stripRank) :=
  standings_stable_c4 [] [twinRosterA, twinRosterB] [] [] [] twinRosterA twinRosterB
    rfl rfl rfl

theorem strOr_ne_empty (o : Option String) (d : String) (hd : d ≠ "") : strOr o d ≠ "" := by
  cases o with
  | none => simpa [strOr] using hd
  | some s =>
    by_cases hs : s = "" <;> simp [strOr, hs, hd]

theorem strOr_none (d : String) : strOr none d = d := rfl

theorem teamLabel_ne_empty (rid : Nat) : ("Team " ++ toString rid) ≠ "" := by
  intro h
  have hlen : ("Team " ++ toString rid).length = 0 := by rw [h]; rfl
  rw [String.length_append] at hlen
  have : ("Team " : String).length = 5 := by decide
  omega

/-- C7: the Resolver maps each user to a name that defaults to `"Unknown"` when
display name and username are both absent, and to an avatar that stays absent
when the source avatar is absent; it maps a roster id whose owning user cannot
be resolved to the synthesized label `"Team {rosterId}"`; and resolution always
succeeds with a nonempty fallback name (it never raises). -/
theorem resolver_c7 (users : List SleeperUser) (rosters : List Roster)
    (u : SleeperUser) (rid : Nat) :
    (u.display_name = none → u.username = none → (userEntry u).name = "Unknown") ∧
    (u.avatar = none → (userEntry u).avatar = none) ∧
    ((userEntry u).name ≠ "") ∧
    (∀ r : Roster, rosters.reverse.find? (fun x => x.roster_id == rid) = some r →
      ownerEntry users r.owner_id = none →
      rosterToUser users rosters rid = some ("Team " ++ toString r.roster_id)) ∧
    (strOr (rosterToUser users rosters rid) ("Team " ++ toString rid) ≠ "") := by
  refine ⟨?_, ?_, ?_, ?_, ?_⟩
  · intro h1 h2
    simp [userEntry, h1, h2, strOr]
  · intro h
    simp [userEntry, h]
  · exact strOr_ne_empty _ _ (strOr_ne_empty _ _ (by decide))
  · intro r hfind hown
    rw [rosterToUser, hfind]
    simp only [Option.map_some']
    rw [hown]
    rfl
  · rcases hval : rosterToUser users rosters rid with _ | s
    · rw [strOr_none]
      exact teamLabel_ne_empty rid
    · have hs : s ≠ "" := by
        rw [rosterToUser] at hval
        rcases Option.map_eq_some'.mp hval with ⟨r, _, hr⟩
        rw [← hr]
        exact strOr_ne_empty _ _ (teamLabel_ne_empty r.roster_id)
      simp [strOr, hs]

/-- A user with neither display name nor username. -/
def anonUser : SleeperUser :=
  { user_id := "anon", display_name := none, username := none, avatar := none }

theorem resolver_c7_witness :
    (userEntry anonUser).name = "Unknown" ∧
      strOr (rosterToUser [] [] 7) ("Team " ++ toString 7) ≠ "" :=
  ⟨(resolver_c7 [] [] anonUser 7).1 rfl rfl, (resolver_c7 [] [] anonUser 7).2.2.2.2⟩

/-- C8: when any of the three required fetch results of a joined refresh is
`null`, the whole refresh fails: the published state carries the error message
and none of the data fields (standings, users, rosters, nfl state, week) is
replaced - no partial snapshot is published. -/
theorem refresh_failure_c8 (prev : DataState) (ns : Option NflState) (lg : Option Unit)
    (us : Option (List SleeperUser)) (rs : Option (List Roster))
    (h : ns = none ∨ us = none ∨ rs = none) :
    (refreshResult prev ns lg us rs).error = some "Failed to fetch league data" ∧
    (refreshResult prev ns lg us rs).loading = false ∧
    (refreshResult prev ns lg us rs).standings = prev.standings ∧
    (refreshResult prev ns lg us rs).users = prev.users ∧
    (refreshResult prev ns lg us rs).rosters = prev.rosters ∧
    (refreshResult prev ns lg us rs).nflState = prev.nflState ∧
    (refreshResult prev ns lg us rs).currentWeek = prev.currentWeek := by
  rcases ns with _ | ns <;> rcases us with _ | us <;> rcases rs with _ | rs <;>
    first
      | exact ⟨rfl, rfl, rfl, rfl, rfl, rfl, rfl⟩
      | (rcases h with h | h | h <;> exact absurd h (by simp))

/-- A previous state with some standings already published. -/
def demoPrevState : DataState :=
  { loading := false, error := none, nflState := none, league := none
    users := [], rosters := [], standings := [], currentWeek := 4 }

theorem refresh_failure_c8_witness :
    (refreshResult demoPrevState none none (some []) (some [])).error
        = some "Failed to fetch league data" ∧
      (refreshResult demoPrevState none none (some []) (some [])).standings
        = demoPrevState.standings :=
  ⟨(refresh_failure_c8 demoPrevState none none (some []) (some []) (Or.inl rfl)).1,
    (refresh_failure_c8 demoPrevState none none (some []) (some [])
      (Or.inl rfl)).2.2.1⟩

/-- C9: the derivation functions are total Lean functions, and every input
irregularity is absorbed by defaulting or filtering: a roster without settings
yields the zero record, a missing streak yields `""`, an unresolvable owner
yields the `"Team {id}"` fallback, the Ranker emits exactly one team per input
roster, a missing score defaults to `0`, and the Trend Aggregator and Award
Calculator emit at most one point per week of their windows whatever the
fetched rows look like. -/
theorem derivations_total_c9 :
    (∀ (users : List SleeperUser) (r : Roster), r.settings = none →
      (teamOf users r).wins = 0 ∧ (teamOf users r).losses = 0 ∧
        (teamOf users r).pf = 0 ∧ (teamOf users r).pa = 0) ∧
    (∀ (users : List SleeperUser) (r : Roster), r.metadata = none →
      (teamOf users r).streak = "") ∧
    (∀ (users : List SleeperUser) (r : Roster), ownerEntry users r.owner_id = none →
      (teamOf users r).name = "Team " ++ toString r.roster_id) ∧
    (∀ (users : List SleeperUser) (rosters : List Roster),
      (standings users rosters).length = rosters.length) ∧
    (∀ m : MatchupRow, m.points = none → rowPoints m = 0) ∧
    (∀ (fetchWeek : Nat → Option (List MatchupRow)) (cw : Nat),
      (weeklyHistory fetchWeek cw).length ≤ min cw 17) ∧
    (∀ (fetchWeek : Nat → Option (List MatchupRow)) (users : List SleeperUser)
      (rosters : List Roster) (cw : Nat),
      (awardsResult fetchWeek users rosters cw).length ≤ 3) := by
  refine ⟨?_, ?_, ?_, ?_, ?_, ?_, ?_⟩
  · intro users r h
    refine ⟨?_, ?_, ?_, ?_⟩ <;> simp [teamOf, h]
  · intro users r h
    simp [teamOf, h, strOr]
  · intro users r h
    simp [teamOf, h, strOr]
  · intro users rosters
    rw [standings, assignRanks_length, List.length_mergeSort, List.length_map]
  · intro m h
    simp [rowPoints, h]
  · intro fetchWeek cw
    calc (weeklyHistory fetchWeek cw).length
        ≤ (List.range' 1 (min cw 17)).length := List.length_filterMap_le _ _
      _ = min cw 17 := List.length_range' _ _ _
  · intro fetchWeek users rosters cw
    rw [awardsResult, List.length_reverse]
    calc (List.filterMap _ (List.range' (max 1 (cw - 2)) (cw + 1 - max 1 (cw - 2)))).length
        ≤ (List.range' (max 1 (cw - 2)) (cw + 1 - max 1 (cw - 2))).length :=
          List.length_filterMap_le _ _
      _ = cw + 1 - max 1 (cw - 2) := List.length_range' _ _ _
      _ ≤ 3 := by omega

/-- A roster with no settings and no metadata at all. -/
def bareRoster : Roster :=
  { roster_id := 9, owner_id := none, settings := none, metadata := none }

/-- A scoring row with no points field. -/
def bareRow : MatchupRow :=
  { roster_id := 1, matchup_id := some 1, points := none }

theorem derivations_total_c9_witness :
    ((teamOf [] bareRoster).wins = 0 ∧ (teamOf [] bareRoster).losses = 0 ∧
      (teamOf [] bareRoster).pf = 0 ∧ (teamOf [] bareRoster).pa = 0) ∧
      rowPoints bareRow = 0 :=
  ⟨derivations_total_c9.1 [] bareRoster rfl, derivations_total_c9.2.2.2.2.1 bareRow rfl⟩

theorem mem_groupKeys (l : List MatchupRow) (mid : Nat) :
    mid ∈ groupKeys l ↔ (mid ≠ 0 ∧ ∃ r ∈ l, r.matchup_id = some mid) := by
  rw [groupKeys, List.mem_mergeSort, List.mem_dedup, List.mem_filter, List.mem_filterMap]
  simp [and_comm]

theorem nodup_groupKeys (l : List MatchupRow) : (groupKeys l).Nodup :=
  (List.mergeSort_perm _ _).nodup_iff.mpr (List.nodup_dedup _)

theorem natLE_trans (a b c : Nat) (h1 : decide (a ≤ b) = true) (h2 : decide (b ≤ c) = true) :
    decide (a ≤ c) = true :=
  decide_eq_true (Nat.le_trans (of_decide_eq_true h1) (of_decide_eq_true h2))

theorem natLE_total (a b : Nat) : (decide (a ≤ b) || decide (b ≤ a)) = true := by
  rcases Nat.le_total a b with h | h <;> simp [h]

theorem sorted_groupKeys (l : List MatchupRow) :
    (groupKeys l).Pairwise (fun a b : Nat => a ≤ b) := by
  have h := List.sorted_mergeSort natLE_trans natLE_total
    ((l.filterMap MatchupRow.matchup_id).filter (fun n => n != 0)).dedup
  exact h.imp (fun hab => of_decide_eq_true hab)

theorem groupRows_length (users : List SleeperUser) (rosters : List Roster)
    (l : List MatchupRow) (mid : Nat) :
    (groupRows users rosters l mid).length
      = (l.filter (fun m => m.matchup_id == some mid)).length := by
  rw [groupRows, List.length_map]

theorem matchupOfGroup_eq_none (g : List TaggedRow) (h : g.length ≠ 2) :
    matchupOfGroup g = none := by
  match g with
  | [] => rfl
  | [a] => rfl
  | [a, b] => exact absurd rfl h
  | a :: b :: c :: t => rfl

theorem matchupOfGroup_eq_some (g : List TaggedRow) (h : g.length = 2) :
    ∃ a b : TaggedRow, g = [a, b] ∧ matchupOfGroup g
      = some { team1 := a.teamName, score1 := a.points
               team2 := b.teamName, score2 := b.points } := by
  match g with
  | [a, b] => exact ⟨a, b, rfl, rfl⟩
  | [] => simp at h
  | [a] => simp at h
  | a :: b :: c :: t => simp at h

theorem indicator_sum_eq_count (ids : List Nat) (n : Nat) :
    (ids.map (fun mid => if n = mid then 1 else 0)).sum = ids.count n := by
  induction ids with
  | nil => rfl
  | cons i is ih =>
    rw [List.map_cons, List.sum_cons, ih, List.count_cons]
    by_cases h : n = i
    · simp [h, Nat.add_comm]
    · simp [h, Nat.add_comm]
      omega

theorem sum_map_add_nat {α : Type _} (l : List α) (f g : α → Nat) :
    (l.map (fun x => f x + g x)).sum = (l.map f).sum + (l.map g).sum := by
  induction l with
  | nil => rfl
  | cons x xs ih =>
    rw [List.map_cons, List.sum_cons, ih, List.map_cons, List.sum_cons, List.map_cons,
      List.sum_cons]
    omega

theorem sum_map_const_two {α : Type _} (l : List α) : (l.map (fun _ => 2)).sum = 2 * l.length := by
  induction l with
  | nil => rfl
  | cons x xs ih =>
    rw [List.map_cons, List.sum_cons, ih, List.length_cons]
    omega

theorem length_eq_sum_group_lengths (ids : List Nat) (l : List MatchupRow)
    (hnd : ids.Nodup)
    (hmem : ∀ r ∈ l, ∃ n : Nat, r.matchup_id = some n ∧ n ∈ ids) :
    (ids.map (fun mid => (l.filter (fun m => m.matchup_id == some mid)).length)).sum
      = l.length := by
  induction l with
  | nil => simp
  | cons r t ih =>
    obtain ⟨n, hn, hmemn⟩ := hmem r (List.mem_cons_self r t)
    have ht : ∀ x ∈ t, ∃ k : Nat, x.matchup_id = some k ∧ k ∈ ids :=
      fun x hx => hmem x (List.mem_cons_of_mem r hx)
    have hsplit : ∀ mid ∈ ids, ((r :: t).filter (fun m => m.matchup_id == some mid)).length
        = (if n = mid then 1 else 0)
          + (t.filter (fun m => m.matchup_id == some mid)).length := by
      intro mid _
      rw [List.filter_cons]
      by_cases h : n = mid
      · subst h
        simp [hn]
        omega
      · have hne : (r.matchup_id == some mid) = false := by
          rw [hn]
          simp [h]
        simp [hne, h]
    rw [List.map_congr_left hsplit, sum_map_add_nat, indicator_sum_eq_count,
      List.count_eq_one_of_mem hnd hmemn, ih ht, List.length_cons]
    omega

theorem length_filterMap_of_isSome {α β : Type _} (f : α → Option β) (l : List α)
    (h : ∀ x ∈ l, (f x).isSome) : (l.filterMap f).length = l.length := by
  induction l with
  | nil => rfl
  | cons x xs ih =>
    cases hfx : f x with
    | none => exact absurd (h x (List.mem_cons_self x xs)) (by simp [hfx])
    | some y =>
      rw [List.filterMap_cons, hfx, List.length_cons, List.length_cons,
        ih (fun z hz => h z (List.mem_cons_of_mem x hz))]

theorem pairs_trace (users : List SleeperUser) (rosters : List Roster) (l : List MatchupRow) :
    ∀ p ∈ pairs users rosters l, ∃ (mid : Nat) (a b : MatchupRow), mid ≠ 0 ∧
      l.filter (fun m => m.matchup_id == some mid) = [a, b] ∧
      p.team1 = (tagRow users rosters a).teamName ∧ p.score1 = rowPoints a ∧
      p.team2 = (tagRow users rosters b).teamName ∧ p.score2 = rowPoints b := by
  intro p hp
  rw [pairs] at hp
  rcases List.mem_filterMap.mp hp with ⟨g, hg, hpg⟩
  rcases List.mem_map.mp hg with ⟨mid, hmid, hgr⟩
  have hmid0 : mid ≠ 0 := ((mem_groupKeys l mid).mp hmid).1
  match g, hpg with
  | [A, B], hpg =>
    have hlen : (l.filter (fun m => m.matchup_id == some mid)).length = 2 := by
      have hl2 := congrArg List.length hgr
      rw [groupRows, List.length_map] at hl2
      simpa using hl2
    obtain ⟨a, b, hab⟩ :
        ∃ a b : MatchupRow, l.filter (fun m => m.matchup_id == some mid) = [a, b] := by
      rcases hq : l.filter (fun m => m.matchup_id == some mid) with _ | ⟨a, _ | ⟨b, _ | ⟨c, tl⟩⟩⟩
      · rw [hq] at hlen; simp at hlen
      · rw [hq] at hlen; simp at hlen
      · exact ⟨a, b, hq⟩
      · rw [hq] at hlen; simp at hlen
    have hAB : [tagRow users rosters a, tagRow users rosters b] = [A, B] := by
      rw [groupRows, hab] at hgr
      simpa using hgr
    have hA : tagRow users rosters a = A := (List.cons.injEq _ _ _ _ ▸ hAB).1
    have hB : tagRow users rosters b = B := by
      have := (List.cons.injEq _ _ _ _ ▸ hAB).2
      exact (List.cons.injEq _ _ _ _ ▸ this).1
    have hpv :
        ({ team1 := A.teamName, score1 := A.points
           team2 := B.teamName, score2 := B.points } : Matchup) = p :=
      Option.some.inj hpg
    refine ⟨mid, a, b, hmid0, hab, ?_, ?_, ?_, ?_⟩
    · rw [← hpv, hA]
    · rw [← hpv, ← hA]; rfl
    · rw [← hpv, hB]
    · rw [← hpv, ← hB]; rfl

/-- C2: for every list of weekly score rows in which every row carries a truthy
pairing id (`matchup_id`) and every pairing id present appears exactly twice,
the Matchup Pairer emits exactly `input length / 2` matchups, and each emitted
matchup's two scores are exactly the (defaulted) points of the two input rows
sharing one pairing id, in input order. -/
theorem matchup_pairer_c2 (users : List SleeperUser) (rosters : List Roster)
    (l : List MatchupRow)
    (h1 : ∀ r ∈ l, truthyMid r.matchup_id = true)
    (h2 : ∀ r ∈ l, (l.filter (fun m => m.matchup_id == r.matchup_id)).length = 2) :
    (pairs users rosters l).length = l.length / 2 ∧
    ∀ p ∈ pairs users rosters l, ∃ (mid : Nat) (a b : MatchupRow),
      l.filter (fun m => m.matchup_id == some mid) = [a, b] ∧
      p.score1 = rowPoints a ∧ p.score2 = rowPoints b := by
  have hkeycount : ∀ mid ∈ groupKeys l,
      (l.filter (fun m => m.matchup_id == some mid)).length = 2 := by
    intro mid hmid
    rcases (mem_groupKeys l mid).mp hmid with ⟨-, r, hr, hrm⟩
    have := h2 r hr
    rw [hrm] at this
    exact this
  constructor
  · have hlen1 : (pairs users rosters l).length = (groupKeys l).length := by
      rw [pairs, List.filterMap_map]
      apply length_filterMap_of_isSome
      intro mid hmid
      have h2m : (groupRows users rosters l mid).length = 2 := by
        rw [groupRows_length]; exact hkeycount mid hmid
      rcases matchupOfGroup_eq_some _ h2m with ⟨a, b, -, hsome⟩
      simp [Function.comp, hsome]
    have hmem : ∀ r ∈ l, ∃ n : Nat, r.matchup_id = some n ∧ n ∈ groupKeys l := by
      intro r hr
      have ht := h1 r hr
      rcases hmidv : r.matchup_id with _ | n
      · rw [hmidv] at ht; exact absurd ht (by simp [truthyMid])
      · refine ⟨n, rfl, (mem_groupKeys l n).mpr ⟨?_, r, hr, hmidv⟩⟩
        rw [hmidv] at ht
        simpa [truthyMid] using ht
    have hpart := length_eq_sum_group_lengths (groupKeys l) l (nodup_groupKeys l) hmem
    rw [List.map_congr_left (fun mid hmid => hkeycount mid hmid), sum_map_const_two]
      at hpart
    omega
  · intro p hp
    rcases pairs_trace users rosters l p hp with ⟨mid, a, b, -, hfl, -, hs1, -, hs2⟩
    exact ⟨mid, a, b, hfl, hs1, hs2⟩

/-- Four rows forming two complete pairings. -/
def demoWeekRows : List MatchupRow :=
  [{ roster_id := 1, matchup_id := some 1, points := some 10 },
   { roster_id := 2, matchup_id := some 1, points := some 20 },
   { roster_id := 3, matchup_id := some 2, points := some 30 },
   { roster_id := 4, matchup_id := some 2, points := none }]

theorem matchup_pairer_c2_witness :
    (pairs [] [] demoWeekRows).length = demoWeekRows.length / 2 :=
  (matchup_pairer_c2 [] [] demoWeekRows (by decide) (by decide)).1

/-- The rows of `l` whose pairing id is truthy and appears exactly twice in `l` -
exactly the rows that can contribute to a pair. -/
def keptRows (l : List MatchupRow) : List MatchupRow :=
  l.filter (fun r => truthyMid r.matchup_id &&
    ((l.filter (fun m => m.matchup_id == r.matchup_id)).length == 2))

theorem groupKeys_keptRows (l : List MatchupRow) :
    groupKeys (keptRows l) = (groupKeys l).filter
      (fun mid => (l.filter (fun m => m.matchup_id == some mid)).length == 2) := by
  have hs1 : (groupKeys (keptRows l)).Pairwise (fun a b : Nat => a ≤ b) :=
    sorted_groupKeys _
  have hs2 : (((groupKeys l).filter
      (fun mid => (l.filter (fun m => m.matchup_id == some mid)).length == 2)).Pairwise
      (fun a b : Nat => a ≤ b)) :=
    (sorted_groupKeys l).filter _
  refine List.eq_of_perm_of_sorted ?_ hs1 hs2
  apply (List.perm_ext_iff_of_nodup (nodup_groupKeys _) ((nodup_groupKeys l).filter _)).mpr
  intro mid
  rw [mem_groupKeys, List.mem_filter, mem_groupKeys]
  constructor
  · rintro ⟨h0, r, hr, hrm⟩
    rw [keptRows, List.mem_filter] at hr
    rcases hr with ⟨hrl, hcond⟩
    rcases Bool.and_eq_true_iff.mp hcond with ⟨-, hcount⟩
    rw [hrm] at hcount
    exact ⟨⟨h0, r, hrl, hrm⟩, hcount⟩
  · rintro ⟨⟨h0, r, hrl, hrm⟩, hcount⟩
    refine ⟨h0, r, ?_, hrm⟩
    rw [keptRows, List.mem_filter]
    refine ⟨hrl, Bool.and_eq_true_iff.mpr ⟨?_, ?_⟩⟩
    · rw [hrm]
      simp [truthyMid, h0]
    · rw [hrm]
      exact hcount

theorem groupRows_keptRows (users : List SleeperUser) (rosters : List Roster)
    (l : List MatchupRow) (mid : Nat) (h0 : mid ≠ 0)
    (hc : (l.filter (fun m => m.matchup_id == some mid)).length = 2) :
    groupRows users rosters (keptRows l) mid = groupRows users rosters l mid := by
  rw [groupRows, groupRows, keptRows, List.filter_filter]
  congr 1
  apply List.filter_congr
  intro m hm
  cases hmm : (m.matchup_id == some mid) with
  | false => simp [hmm]
  | true =>
    have heq : m.matchup_id = some mid := by simpa using hmm
    simp only [hmm, Bool.true_and]
    rw [heq]
    simp [truthyMid, h0, hc]

theorem filterMap_filter_eq {α β : Type _} (p : α → Bool) (f g : α → Option β) (l : List α)
    (h1 : ∀ x ∈ l, p x = true → f x = g x)
    (h2 : ∀ x ∈ l, p x = false → g x = none) :
    (l.filter p).filterMap f = l.filterMap g := by
  induction l with
  | nil => rfl
  | cons x xs ih =>
    have ih2 := ih (fun z hz => h1 z (List.mem_cons_of_mem x hz))
      (fun z hz => h2 z (List.mem_cons_of_mem x hz))
    cases hp : p x with
    | true =>
      simp only [List.filter_cons, hp, if_true]
      rw [List.filterMap_cons, List.filterMap_cons,
        h1 x (List.mem_cons_self x xs) hp, ih2]
    | false =>
      rw [List.filterMap_cons, h2 x (List.mem_cons_self x xs) hp]
      simpa [List.filter_cons, hp] using ih2

/-- C6: a pairing id that appears exactly once, or three or more times,
contributes zero matchups, and a row with a missing (or otherwise falsy)
pairing id contributes to no pair: the Matchup Pairer output is unchanged when
every such row is deleted from the input, i.e. it only ever depends on the rows
whose truthy pairing id appears exactly twice. -/
theorem matchup_pairer_drops_c6 (users : List SleeperUser) (rosters : List Roster)
    (l : List MatchupRow) :
    pairs users rosters l = pairs users rosters (keptRows l) := by
  rw [pairs, pairs, groupKeys_keptRows, List.filterMap_map, List.filterMap_map]
  symm
  apply filterMap_filter_eq
  · intro mid hmid hq
    have h0 : mid ≠ 0 := ((mem_groupKeys l mid).mp hmid).1
    have hc : (l.filter (fun m => m.matchup_id == some mid)).length = 2 := by
      simpa using hq
    simp only [Function.comp]
    rw [groupRows_keptRows users rosters l mid h0 hc]
  · intro mid hmid hq
    simp only [Function.comp]
    apply matchupOfGroup_eq_none
    rw [groupRows_length]
    intro hcc
    rw [hcc] at hq
    simp at hq

theorem filter_nonzero_ids (l : List MatchupRow) :
    ((l.filter (fun r => !(r.matchup_id == some 0))).filterMap MatchupRow.matchup_id).filter
        (fun n => n != 0)
      = (l.filterMap MatchupRow.matchup_id).filter (fun n => n != 0) := by
  induction l with
  | nil => rfl
  | cons r t ih =>
    by_cases hz : r.matchup_id = some 0
    · simp [List.filter_cons, List.filterMap_cons, hz, ih]
    · rcases hm : r.matchup_id with _ | n
      · simp [List.filter_cons, List.filterMap_cons, hm, ih]
      · have hn : n ≠ 0 := fun h => hz (by rw [hm, h])
        simp [List.filter_cons, List.filterMap_cons, hm, hn, ih]

theorem groupKeys_filter_zero (l : List MatchupRow) :
    groupKeys (l.filter (fun r => !(r.matchup_id == some 0))) = groupKeys l := by
  rw [groupKeys, groupKeys, filter_nonzero_ids]

theorem groupRows_filter_zero (users : List SleeperUser) (rosters : List Roster)
    (l : List MatchupRow) (mid : Nat) (h0 : mid ≠ 0) :
    groupRows users rosters (l.filter (fun r => !(r.matchup_id == some 0))) mid
      = groupRows users rosters l mid := by
  rw [groupRows, groupRows, List.filter_filter]
  congr 1
  apply List.filter_congr
  intro m hm
  cases hmm : (m.matchup_id == some mid) with
  | false => simp [hmm]
  | true =>
    have heq : m.matchup_id = some mid := by simpa using hmm
    simp [hmm, heq, h0]

/-- C10: the Matchup Pairer treats the numeric pairing id `0` exactly like a
missing id, because the grouping guard tests JS truthiness: the output is
unchanged when every row whose `matchup_id` is literally `0` is deleted - even
when `0` appears on exactly two rows, those rows contribute no pair. -/
theorem pairer_zero_id_c10 (users : List SleeperUser) (rosters : List Roster)
    (l : List MatchupRow) :
    pairs users rosters l
      = pairs users rosters (l.filter (fun r => !(r.matchup_id == some 0))) := by
  rw [pairs, pairs, groupKeys_filter_zero]
  congr 1
  apply List.map_congr_left
  intro mid hmid
  exact (groupRows_filter_zero users rosters l mid
    ((mem_groupKeys l mid).mp hmid).1).symm

theorem foldl_max_mem (a : ℚ) (t : List ℚ) : t.foldl max a ∈ a :: t := by
  induction t generalizing a with
  | nil => simp
  | cons x xs ih =>
    rw [List.foldl_cons]
    rcases List.mem_cons.mp (ih (max a x)) with h2 | h2
    · rcases max_choice a x with h3 | h3 <;> rw [h2, h3] <;> simp
    · exact List.mem_cons_of_mem _ (List.mem_cons_of_mem _ h2)

theorem foldl_max_le (a : ℚ) (t : List ℚ) : ∀ x ∈ a :: t, x ≤ t.foldl max a := by
  induction t generalizing a with
  | nil =>
    intro x hx
    rw [List.mem_singleton] at hx
    rw [hx, List.foldl_nil]
  | cons y ys ih =>
    intro x hx
    rw [List.foldl_cons]
    have hinit : max a y ≤ ys.foldl max (max a y) :=
      ih (max a y) (max a y) (List.mem_cons_self _ _)
    rcases List.mem_cons.mp hx with h | h
    · rw [h]
      exact le_trans (le_max_left a y) hinit
    · rcases List.mem_cons.mp h with h2 | h2
      · rw [h2]
        exact le_trans (le_max_right a y) hinit
      · exact ih (max a y) x (List.mem_cons_of_mem _ h2)

theorem foldl_min_mem (a : ℚ) (t : List ℚ) : t.foldl min a ∈ a :: t := by
  induction t generalizing a with
  | nil => simp
  | cons x xs ih =>
    rw [List.foldl_cons]
    rcases List.mem_cons.mp (ih (min a x)) with h2 | h2
    · rcases min_choice a x with h3 | h3 <;> rw [h2, h3] <;> simp
    · exact List.mem_cons_of_mem _ (List.mem_cons_of_mem _ h2)

theorem foldl_min_le (a : ℚ) (t : List ℚ) : ∀ x ∈ a :: t, t.foldl min a ≤ x := by
  induction t generalizing a with
  | nil =>
    intro x hx
    rw [List.mem_singleton] at hx
    rw [hx, List.foldl_nil]
  | cons y ys ih =>
    intro x hx
    rw [List.foldl_cons]
    have hinit : ys.foldl min (min a y) ≤ min a y :=
      ih (min a y) (min a y) (List.mem_cons_self _ _)
    rcases List.mem_cons.mp hx with h | h
    · rw [h]
      exact le_trans hinit (min_le_left a y)
    · rcases List.mem_cons.mp h with h2 | h2
      · rw [h2]
        exact le_trans hinit (min_le_right a y)
      · exact ih (min a y) x (List.mem_cons_of_mem _ h2)

theorem listMax_spec (scores : List ℚ) (h : scores ≠ []) :
    listMax scores ∈ scores ∧ ∀ x ∈ scores, x ≤ listMax scores := by
  match scores with
  | [] => exact absurd rfl h
  | s0 :: rest => exact ⟨foldl_max_mem s0 rest, foldl_max_le s0 rest⟩

theorem listMin_spec (scores : List ℚ) (h : scores ≠ []) :
    listMin scores ∈ scores ∧ ∀ x ∈ scores, listMin scores ≤ x := by
  match scores with
  | [] => exact absurd rfl h
  | s0 :: rest => exact ⟨foldl_min_mem s0 rest, foldl_min_le s0 rest⟩

theorem weekPoint_week (w : Nat) (data : List MatchupRow) (p : TrendPoint)
    (h : weekPoint w data = some p) : p.week = w := by
  rw [weekPoint] at h
  split at h
  · rw [← Option.some.inj h]
  · exact absurd h (by simp)

theorem weekPoint_some (w : Nat) (data : List MatchupRow) (h : weekScores data ≠ []) :
    weekPoint w data = some
      { week := w, high := listMax (weekScores data), low := listMin (weekScores data)
        avg := (weekScores data).sum / ((weekScores data).length : ℚ) } := by
  rw [weekPoint]
  rw [if_pos (List.length_pos.mpr h)]

theorem mem_range'_iff (s n m : Nat) : m ∈ List.range' s n ↔ s ≤ m ∧ m < s + n := by
  induction n generalizing s with
  | zero => simp [List.range']
  | succ k ih =>
    rw [List.range'_succ, List.mem_cons, ih]
    omega

theorem pairwise_lt_range'_nat (s n : Nat) :
    (List.range' s n).Pairwise (fun a b : Nat => a < b) := by
  induction n generalizing s with
  | zero => simp [List.range']
  | succ k ih =>
    rw [List.range'_succ]
    refine List.pairwise_cons.mpr ⟨?_, ih (s + 1)⟩
    intro b hb
    have := (mem_range'_iff (s + 1) k b).mp hb
    omega

/-- C5: for every week of the scanned range, the Weekly Trend Aggregator filters
out non-positive scores; when at least one qualifying score remains, it emits a
point for that week whose `high` is the maximum, `low` the minimum, and `avg`
the arithmetic mean of the qualifying scores; a week with zero qualifying
scores contributes no point at all. -/
theorem weekly_trend_c5 (fetchWeek : Nat → Option (List MatchupRow)) (cw w : Nat)
    (data : List MatchupRow) (hw : fetchWeek w = some data)
    (h1 : 1 ≤ w) (h2 : w ≤ min cw 17) :
    (weekScores data ≠ [] →
      ∃ p ∈ weeklyHistory fetchWeek cw, p.week = w ∧
        p.high ∈ weekScores data ∧ (∀ x ∈ weekScores data, x ≤ p.high) ∧
        p.low ∈ weekScores data ∧ (∀ x ∈ weekScores data, p.low ≤ x) ∧
        p.avg * ((weekScores data).length : ℚ) = (weekScores data).sum) ∧
    (weekScores data = [] → ∀ p ∈ weeklyHistory fetchWeek cw, p.week ≠ w) := by
  have hwmem : w ∈ List.range' 1 (min cw 17) := by
    rw [mem_range'_iff]
    omega
  constructor
  · intro hne
    have hdata : data.length > 0 := by
      rcases data with _ | ⟨d, ds⟩
      · exact absurd rfl hne
      · simp
    refine ⟨{ week := w, high := listMax (weekScores data), low := listMin (weekScores data)
              avg := (weekScores data).sum / ((weekScores data).length : ℚ) }, ?_, rfl,
      (listMax_spec _ hne).1, (listMax_spec _ hne).2,
      (listMin_spec _ hne).1, (listMin_spec _ hne).2, ?_⟩
    · rw [weeklyHistory]
      refine List.mem_filterMap.mpr ⟨w, hwmem, ?_⟩
      rw [hw]
      show (if data.length > 0 then weekPoint w data else none) = _
      rw [if_pos hdata, weekPoint_some w data hne]
    · have hlen : ((weekScores data).length : ℚ) ≠ 0 := by
        have := List.length_pos.mpr hne
        exact_mod_cast Nat.pos_iff_ne_zero.mp this
      field_simp
  · intro hempty p hp
    rw [weeklyHistory] at hp
    rcases List.mem_filterMap.mp hp with ⟨v, hv, hfv⟩
    intro hweek
    have hvweek : p.week = v := by
      rcases hfetch : fetchWeek v with _ | d
      · rw [hfetch] at hfv; exact absurd hfv (by simp)
      · rw [hfetch] at hfv
        have hfv2 : (if d.length > 0 then weekPoint v d else none) = some p := hfv
        by_cases hd : d.length > 0
        · rw [if_pos hd] at hfv2
          exact weekPoint_week v d p hfv2
        · rw [if_neg hd] at hfv2
          exact absurd hfv2 (by simp)
    have hv_eq : v = w := by rw [← hvweek, hweek]
    rw [hv_eq] at hfv
    rw [hw] at hfv
    have hfv2 : (if data.length > 0 then weekPoint w data else none) = some p := hfv
    have : weekPoint w data = some p := by
      by_cases hd : data.length > 0
      · rw [if_pos hd] at hfv2; exact hfv2
      · rw [if_neg hd] at hfv2; exact absurd hfv2 (by simp)
    rw [weekPoint, if_neg (by rw [hempty]; simp)] at this
    exact absurd this (by simp)

/-- Week-3 rows scoring 10, 20, 30 plus a zero score and a missing score. -/
def demoTrendRows : List MatchupRow :=
  [{ roster_id := 1, matchup_id := some 1, points := some 10 },
   { roster_id := 2, matchup_id := some 1, points := some 20 },
   { roster_id := 3, matchup_id := some 2, points := some 30 },
   { roster_id := 4, matchup_id := some 2, points := some 0 },
   { roster_id := 5, matchup_id := none, points := none }]

/-- A fetch schedule that only serves week 3. -/
def demoTrendFetch : Nat → Option (List MatchupRow) :=
  fun w => if w = 3 then some demoTrendRows else none

theorem weekly_trend_c5_witness :
    weekScores demoTrendRows ≠ [] ∧
      ∃ p ∈ weeklyHistory demoTrendFetch 5, p.week = 3 ∧
        p.high ∈ weekScores demoTrendRows ∧
        (∀ x ∈ weekScores demoTrendRows, x ≤ p.high) ∧
        p.low ∈ weekScores demoTrendRows ∧
        (∀ x ∈ weekScores demoTrendRows, p.low ≤ x) ∧
        p.avg * ((weekScores demoTrendRows).length : ℚ) = (weekScores demoTrendRows).sum :=
  ⟨by decide,
    (weekly_trend_c5 demoTrendFetch 5 3 demoTrendRows (by decide) (by decide) (by decide)).1
      (by decide)⟩

/-- `reduce((acc, t) => key acc < key t ? t : acc, acc0)` as a parametrised fold;
`key = points` is the top-scorer reduction, `key = -points` the low-scorer one. -/
def pickBy (key : ScoreEntry → ℚ) (acc : ScoreEntry) (l : List ScoreEntry) : ScoreEntry :=
  l.foldl (fun mx t => if key mx < key t then t else mx) acc

theorem pickTop_eq_pickBy (s0 : ScoreEntry) (l : List ScoreEntry) :
    pickTop s0 l = pickBy (fun t => t.points) s0 l := rfl

theorem pickLow_eq_pickBy (s0 : ScoreEntry) (l : List ScoreEntry) :
    pickLow s0 l = pickBy (fun t => -t.points) s0 l := by
  rw [pickLow, pickBy]
  congr 1
  funext mn t
  by_cases h : t.points < mn.points
  · rw [if_pos h, if_pos (by linarith)]
  · rw [if_neg h, if_neg (by intro hc; exact h (by linarith))]

theorem pickBy_spec (key : ScoreEntry → ℚ) (l : List ScoreEntry) (acc : ScoreEntry) :
    (∀ x ∈ l, key x ≤ key (pickBy key acc l)) ∧
    key acc ≤ key (pickBy key acc l) ∧
    (pickBy key acc l = acc ∨
      ∃ l1 l2, l = l1 ++ pickBy key acc l :: l2 ∧ key acc < key (pickBy key acc l) ∧
        ∀ y ∈ l1, key y < key (pickBy key acc l)) := by
  induction l generalizing acc with
  | nil => exact ⟨by simp, le_refl _, Or.inl rfl⟩
  | cons t ts ih =>
    have hstep : pickBy key acc (t :: ts)
        = pickBy key (if key acc < key t then t else acc) ts := rfl
    by_cases hlt : key acc < key t
    · rw [hstep, if_pos hlt]
      rcases ih t with ⟨hub, hinit, hcase⟩
      refine ⟨?_, le_of_lt (lt_of_lt_of_le hlt hinit), ?_⟩
      · intro x hx
        rcases List.mem_cons.mp hx with h | h
        · rw [h]; exact hinit
        · exact hub x h
      · rcases hcase with he | ⟨l1, l2, hsplit, hgt, hall⟩
        · right
          refine ⟨[], ts, ?_, ?_, by simp⟩
          · rw [he]; rfl
          · rw [he]; exact hlt
        · right
          refine ⟨t :: l1, l2, ?_, lt_trans hlt hgt, ?_⟩
          · rw [List.cons_append, ← hsplit]
          · intro y hy
            rcases List.mem_cons.mp hy with h | h
            · rw [h]; exact hgt
            · exact hall y h
    · rw [hstep, if_neg hlt]
      rcases ih acc with ⟨hub, hinit, hcase⟩
      refine ⟨?_, hinit, ?_⟩
      · intro x hx
        rcases List.mem_cons.mp hx with h | h
        · rw [h]; exact le_trans (le_of_not_lt hlt) hinit
        · exact hub x h
      · rcases hcase with he | ⟨l1, l2, hsplit, hgt, hall⟩
        · exact Or.inl he
        · right
          refine ⟨t :: l1, l2, ?_, hgt, ?_⟩
          · rw [List.cons_append, ← hsplit]
          · intro y hy
            rcases List.mem_cons.mp hy with h | h
            · rw [h]; exact lt_of_le_of_lt (le_of_not_lt hlt) hgt
            · exact hall y h

theorem pickTop_first_max (s0 : ScoreEntry) (rest : List ScoreEntry) :
    ∃ l1 l2, s0 :: rest = l1 ++ pickTop s0 (s0 :: rest) :: l2 ∧
      (∀ y ∈ l1, y.points < (pickTop s0 (s0 :: rest)).points) ∧
      ∀ x ∈ s0 :: rest, x.points ≤ (pickTop s0 (s0 :: rest)).points := by
  rw [pickTop_eq_pickBy]
  rcases pickBy_spec (fun t => t.points) (s0 :: rest) s0 with ⟨hub, hinit, hcase⟩
  rcases hcase with he | ⟨l1, l2, hsplit, hgt, hall⟩
  · exact ⟨[], rest, by rw [he]; rfl, by simp, hub⟩
  · exact ⟨l1, l2, hsplit, hall, hub⟩

theorem pickLow_first_min (s0 : ScoreEntry) (rest : List ScoreEntry) :
    ∃ l1 l2, s0 :: rest = l1 ++ pickLow s0 (s0 :: rest) :: l2 ∧
      (∀ y ∈ l1, (pickLow s0 (s0 :: rest)).points < y.points) ∧
      ∀ x ∈ s0 :: rest, (pickLow s0 (s0 :: rest)).points ≤ x.points := by
  rw [pickLow_eq_pickBy]
  rcases pickBy_spec (fun t => -t.points) (s0 :: rest) s0 with ⟨hub, hinit, hcase⟩
  rcases hcase with he | ⟨l1, l2, hsplit, hgt, hall⟩
  · refine ⟨[], rest, by rw [he]; rfl, by simp, ?_⟩
    intro x hx
    have h2 := hub x hx
    linarith
  · refine ⟨l1, l2, hsplit, ?_, ?_⟩
    · intro y hy
      have h2 := hall y hy
      linarith
    · intro x hx
      have h2 := hub x hx
      linarith

theorem weekAward_eq (users : List SleeperUser) (rosters : List Roster) (w : Nat)
    (data : List MatchupRow) (s0 : ScoreEntry) (rest : List ScoreEntry)
    (hs : awardScores users rosters data = s0 :: rest) :
    weekAward users rosters w data = some
      { week := w, topDawg := pickTop s0 (s0 :: rest)
        superWeenie := pickLow s0 (s0 :: rest), horsesAss := pickLow s0 (s0 :: rest) } := by
  rw [weekAward, hs]

theorem weekAward_none (users : List SleeperUser) (rosters : List Roster) (w : Nat)
    (data : List MatchupRow) (hs : awardScores users rosters data = []) :
    weekAward users rosters w data = none := by
  rw [weekAward, hs]

theorem weekAward_week_eq (users : List SleeperUser) (rosters : List Roster) (w : Nat)
    (data : List MatchupRow) (a : WeekAward)
    (h : weekAward users rosters w data = some a) : a.week = w := by
  rcases hs : awardScores users rosters data with _ | ⟨s0, rest⟩
  · rw [weekAward_none users rosters w data hs] at h
    exact absurd h (by simp)
  · rw [weekAward_eq users rosters w data s0 rest hs] at h
    rw [← Option.some.inj h]

theorem awardStep_week (fetchWeek : Nat → Option (List MatchupRow))
    (users : List SleeperUser) (rosters : List Roster) (w : Nat) (a : WeekAward)
    (h : awardStep fetchWeek users rosters w = some a) : a.week = w := by
  rw [awardStep] at h
  rcases hf : fetchWeek w with _ | data
  · rw [hf] at h; exact absurd h (by simp)
  · rw [hf] at h
    have h2 : (if data.length = 0 then none else weekAward users rosters w data)
        = some a := h
    by_cases hd : data.length = 0
    · rw [if_pos hd] at h2; exact absurd h2 (by simp)
    · rw [if_neg hd] at h2
      exact weekAward_week_eq users rosters w data a h2

theorem pairwise_week_filterMap (fetchWeek : Nat → Option (List MatchupRow))
    (users : List SleeperUser) (rosters : List Roster) (ws : List Nat)
    (h : ws.Pairwise (fun a b : Nat => a < b)) :
    ((ws.filterMap (awardStep fetchWeek users rosters)).map WeekAward.week).Pairwise
      (fun a b : Nat => a < b) := by
  induction ws with
  | nil => simp
  | cons w rest ih =>
    rcases List.pairwise_cons.mp h with ⟨hhead, htail⟩
    rcases hstep : awardStep fetchWeek users rosters w with _ | a
    · rw [List.filterMap_cons_none hstep]
      exact ih htail
    · rw [List.filterMap_cons_some hstep, List.map_cons]
      refine List.pairwise_cons.mpr ⟨?_, ih htail⟩
      intro b hb
      rcases List.mem_map.mp hb with ⟨a2, ha2, hba⟩
      rcases List.mem_filterMap.mp ha2 with ⟨w2, hw2, hstep2⟩
      have h1 : a.week = w := awardStep_week fetchWeek users rosters w a hstep
      have h2 : a2.week = w2 := awardStep_week fetchWeek users rosters w2 a2 hstep2
      rw [← hba, h2, h1]
      exact hhead w2 hw2

/-- C3: the Award Calculator touches exactly the trailing window
`[max(1, currentWeek - 2), currentWeek]`: every emitted award's week lies in
it, and every window week whose fetch yields at least one qualifying score does
emit an award; the result is ordered most-recent-week-first (weeks strictly
decreasing); and each award's top scorer (resp. low scorer) is the first
maximal (resp. first minimal) element of that week's score list under the
left-to-right reduction, the bust being a restatement of the low scorer. -/
theorem awards_calculator_c3 (fetchWeek : Nat → Option (List MatchupRow))
    (users : List SleeperUser) (rosters : List Roster) (cw : Nat) :
    (∀ a ∈ awardsResult fetchWeek users rosters cw,
      max 1 (cw - 2) ≤ a.week ∧ a.week ≤ cw) ∧
    ((awardsResult fetchWeek users rosters cw).map WeekAward.week).Pairwise
      (fun a b : Nat => b < a) ∧
    (∀ w : Nat, max 1 (cw - 2) ≤ w → w ≤ cw → ∀ data : List MatchupRow,
      fetchWeek w = some data → awardScores users rosters data ≠ [] →
      ∃ a ∈ awardsResult fetchWeek users rosters cw, a.week = w) ∧
    (∀ a ∈ awardsResult fetchWeek users rosters cw,
      ∃ data : List MatchupRow, fetchWeek a.week = some data ∧
        (∃ l1 l2, awardScores users rosters data = l1 ++ a.topDawg :: l2 ∧
          (∀ y ∈ l1, y.points < a.topDawg.points) ∧
          ∀ x ∈ awardScores users rosters data, x.points ≤ a.topDawg.points) ∧
        (∃ l1 l2, awardScores users rosters data = l1 ++ a.superWeenie :: l2 ∧
          (∀ y ∈ l1, a.superWeenie.points < y.points) ∧
          ∀ x ∈ awardScores users rosters data, a.superWeenie.points ≤ x.points) ∧
        a.horsesAss = a.superWeenie) := by
  refine ⟨?_, ?_, ?_, ?_⟩
  · intro a ha
    rw [awardsResult, List.mem_reverse] at ha
    rcases List.mem_filterMap.mp ha with ⟨w, hw, hstep⟩
    have haw : a.week = w := awardStep_week fetchWeek users rosters w a hstep
    have hrange := (mem_range'_iff _ _ w).mp hw
    rw [haw]
    omega
  · rw [awardsResult, List.map_reverse, List.pairwise_reverse]
    exact pairwise_week_filterMap fetchWeek users rosters _ (pairwise_lt_range'_nat _ _)
  · intro w hlow hhigh data hfetch hne
    have hwmem : w ∈ List.range' (max 1 (cw - 2)) (cw + 1 - max 1 (cw - 2)) := by
      rw [mem_range'_iff]
      omega
    have hlen0 : ¬ data.length = 0 := by
      intro hd
      rw [List.length_eq_zero.mp hd] at hne
      exact hne rfl
    rcases hs : awardScores users rosters data with _ | ⟨s0, rest⟩
    · exact absurd hs hne
    · have hstep : awardStep fetchWeek users rosters w = some
          { week := w, topDawg := pickTop s0 (s0 :: rest)
            superWeenie := pickLow s0 (s0 :: rest)
            horsesAss := pickLow s0 (s0 :: rest) } := by
        rw [awardStep, hfetch]
        show (if data.length = 0 then none else weekAward users rosters w data) = _
        rw [if_neg hlen0, weekAward_eq users rosters w data s0 rest hs]
      refine ⟨{ week := w, topDawg := pickTop s0 (s0 :: rest)
                superWeenie := pickLow s0 (s0 :: rest)
                horsesAss := pickLow s0 (s0 :: rest) }, ?_, rfl⟩
      rw [awardsResult, List.mem_reverse]
      exact List.mem_filterMap.mpr ⟨w, hwmem, hstep⟩
  · intro a ha
    rw [awardsResult, List.mem_reverse] at ha
    rcases List.mem_filterMap.mp ha with ⟨w, hw, hstep⟩
    have haw : a.week = w := awardStep_week fetchWeek users rosters w a hstep
    rw [awardStep] at hstep
    rcases hfetch : fetchWeek w with _ | data
    · rw [hfetch] at hstep; exact absurd hstep (by simp)
    · rw [hfetch] at hstep
      have hstep2 : (if data.length = 0 then none else weekAward users rosters w data)
          = some a := hstep
      by_cases hd : data.length = 0
      · rw [if_pos hd] at hstep2; exact absurd hstep2 (by simp)
      · rw [if_neg hd] at hstep2
        rcases hs : awardScores users rosters data with _ | ⟨s0, rest⟩
        · rw [weekAward_none users rosters w data hs] at hstep2
          exact absurd hstep2 (by simp)
        · rw [weekAward_eq users rosters w data s0 rest hs] at hstep2
          have ha2 := Option.some.inj hstep2
          refine ⟨data, by rw [haw, hfetch], ?_, ?_, ?_⟩
          · rcases pickTop_first_max s0 rest with ⟨l1, l2, h1, h2, h3⟩
            refine ⟨l1, l2, ?_, ?_, ?_⟩
            · rw [hs, ← ha2]; exact h1
            · intro y hy
              rw [← ha2]
              exact h2 y hy
            · intro x hx
              rw [hs] at hx
              rw [← ha2]
              exact h3 x hx
          · rcases pickLow_first_min s0 rest with ⟨l1, l2, h1, h2, h3⟩
            refine ⟨l1, l2, ?_, ?_, ?_⟩
            · rw [hs, ← ha2]; exact h1
            · intro y hy
              rw [← ha2]
              exact h2 y hy
            · intro x hx
              rw [hs] at hx
              rw [← ha2]
              exact h3 x hx
          · rw [← ha2]

/-- Week-2 rows: scores 100, 80 and 95. -/
def demoAwardRows : List MatchupRow :=
  [{ roster_id := 1, matchup_id := some 1, points := some 100 },
   { roster_id := 2, matchup_id := some 1, points := some 80 },
   { roster_id := 3, matchup_id := some 2, points := some 95 }]

/-- A fetch schedule that only serves week 2. -/
def demoAwardFetch : Nat → Option (List MatchupRow) :=
  fun w => if w = 2 then some demoAwardRows else none

theorem awards_calculator_c3_witness :
    ∃ a ∈ awardsResult demoAwardFetch [] [] 3, a.week = 2 :=
  (awards_calculator_c3 demoAwardFetch [] [] 3).2.2.1 2 (by decide) (by decide)
    demoAwardRows (by decide) (by decide)

end Misfits
